import Mathlib

/-!
Verification of the core layer of the Goodix gtx8 touchscreen driver
(drivers/input/touchscreen/gtx8/goodix_ts_core.h).

The checksum helpers and the two static register maps are embedded
directly from the source.  A buffer argument `u8 *data` together with its
`u32 size` is embedded as a `List Nat` holding exactly the `size` bytes;
where the C code can read past the end of the buffer, the embedding is
total and returns `Option`, with `none` marking an out-of-bounds access.
Unsigned C arithmetic is modelled on `Nat` with explicit reductions
modulo `2 ^ 8`, `2 ^ 16` and `2 ^ 32`.

Operations of the core whose bodies are not part of the repository's
files (only their declarations are in the header) are modelled from the
specification's words; each such definition carries a doc comment that
starts with "Modelled from the spec:".
-/

namespace Goodix

/-- 2 ^ 16, the modulus of `u16` arithmetic. -/
def U16_MOD : Nat := 65536

/-- 2 ^ 32, the modulus of `u32` arithmetic. -/
def U32_MOD : Nat := 4294967296

/-- Constant GOODIX_BUS_RETRY_TIMES of the header. -/
def GOODIX_BUS_RETRY_TIMES : Nat := 3

/-- Constant GOODIX_MAX_TOUCH of the header. -/
def GOODIX_MAX_TOUCH : Nat := 10

/-- Constant GOODIX_ESD_TICK_WRITE_DATA of the header (0xAA). -/
def GOODIX_ESD_TICK_WRITE_DATA : Nat := 170

/-- Constant GOODIX_TOUCH_EVENT of the header (0x80). -/
def GOODIX_TOUCH_EVENT : Nat := 128

/-- Constant GOODIX_REQUEST_EVENT of the header (0x40). -/
def GOODIX_REQUEST_EVENT : Nat := 64

/-- Constant GOODIX_GESTURE_EVENT of the header (0x20). -/
def GOODIX_GESTURE_EVENT : Nat := 32

/-- Constant GOODIX_HOTKNOT_EVENT of the header (0x10). -/
def GOODIX_HOTKNOT_EVENT : Nat := 16

/-- Constant GOODIX_MAX_TP_KEY of the header. -/
def GOODIX_MAX_TP_KEY : Nat := 4

/-- Constant GOODIX_MAX_PEN_KEY of the header. -/
def GOODIX_MAX_PEN_KEY : Nat := 2

/-- `checksum_u8` of the header: a `u8` running sum over the `size` bytes
of the buffer (`data` stands for exactly those bytes); each addition is
`u8` arithmetic, i.e. reduced modulo 256. -/
def checksum_u8 (data : List Nat) : Nat :=
  data.foldl (fun checksum b => (checksum + b) % 256) 0

theorem checksum_u8_foldl (data : List Nat) :
    ∀ c : Nat, data.foldl (fun checksum b => (checksum + b) % 256) (c % 256)
      = (c + data.sum) % 256 := by
  induction data with
  | nil => intro c; simp
  | cons b l ih =>
      intro c
      have h1 : (c % 256 + b) % 256 = (c + b) % 256 := by
        rw [Nat.mod_add_mod]
      simp only [List.foldl_cons, List.sum_cons, h1]
      rw [ih (c + b), Nat.add_assoc]

/-- The loop of `checksum_u8_ys`: `for (i = 0; i < bound; i++) checksum += data[i]`
with a `u16` accumulator, where `bound` is the already-computed `u32` value
of `size - 2`.  An access past the end of the buffer yields `none`. -/
def u16SumLoop (data : List Nat) (bound : Nat) (i : Nat) (checksum : Nat) :
    Option Nat :=
  if _hlt : i < bound then
    match data[i]? with
    | none => none
    | some b => u16SumLoop data bound (i + 1) ((checksum + b) % U16_MOD)
  else
    some checksum
termination_by bound - i

/-- `checksum_u8_ys` of the header (the yellowstone 8-bit-data variant):
a `u16` sum of bytes `0 .. size-3` minus the trailing big-endian 16-bit
field `data[size-2] << 8 | data[size-1]`.  Both `size - 2` and `size - 1`
are `u32` subtractions, hence the wrap-around modulo `U32_MOD`; the `u16`
result of the final subtraction is the difference modulo `U16_MOD`. -/
def checksum_u8_ys (data : List Nat) (size : Nat) : Option Nat :=
  (u16SumLoop data ((size + (U32_MOD - 2)) % U32_MOD) 0 0).bind fun checksum =>
    (data[(size + (U32_MOD - 2)) % U32_MOD]?).bind fun hi =>
      (data[(size + (U32_MOD - 1)) % U32_MOD]?).bind fun lo =>
        some ((checksum + (U16_MOD - (hi * 256 + lo) % U16_MOD)) % U16_MOD)

theorem u16SumLoop_eq_sum (data : List Nat) (bound : Nat)
    (hb : bound ≤ data.length) :
    ∀ n i checksum, bound - i = n → i ≤ bound → checksum < U16_MOD →
      u16SumLoop data bound i checksum
        = some ((checksum + ((data.drop i).take (bound - i)).sum) % U16_MOD) := by
  intro n
  induction n with
  | zero =>
      intro i checksum hn hi hc
      have hie : i = bound := by omega
      subst hie
      rw [u16SumLoop]
      rw [dif_neg (by omega)]
      simp [Nat.sub_self, Nat.mod_eq_of_lt hc]
  | succ n ih =>
      intro i checksum hn hi hc
      have hilt : i < bound := by omega
      have hlen : i < data.length := by omega
      rw [u16SumLoop, dif_pos hilt]
      rw [List.getElem?_eq_getElem hlen]
      have hrec := ih (i + 1) ((checksum + data[i]) % U16_MOD) (by omega)
        (by omega) (Nat.mod_lt _ (by norm_num [U16_MOD]))
      simp only [hrec]
      have hdrop : data.drop i = data[i] :: data.drop (i + 1) :=
        List.drop_eq_getElem_cons hlen
      have htake : (data.drop i).take (bound - i)
          = data[i] :: ((data.drop (i + 1)).take (bound - (i + 1))) := by
        rw [hdrop]
        have : bound - i = (bound - (i + 1)) + 1 := by omega
        rw [this, List.take_succ_cons]
      rw [htake, List.sum_cons, Nat.mod_add_mod, Nat.add_assoc]

theorem u16SumLoop_isSome (data : List Nat) (bound : Nat)
    (hb : bound ≤ data.length) (i checksum : Nat) (hi : i ≤ bound)
    (hc : checksum < U16_MOD) :
    (u16SumLoop data bound i checksum).isSome := by
  rw [u16SumLoop_eq_sum data bound hb (bound - i) i checksum rfl hi hc]
  rfl

/-- C2: `checksum_u8` equals the sum of all input bytes modulo 256, and it
is a pure additive fold: the checksum of a concatenation is the mod-256 sum
of the checksums of the parts, so its value is independent of how the bytes
are grouped. -/
theorem checksum_u8_sum_mod :
    (∀ data : List Nat, checksum_u8 data = data.sum % 256) ∧
    (∀ a b : List Nat,
      checksum_u8 (a ++ b) = (checksum_u8 a + checksum_u8 b) % 256) := by
  have hsum : ∀ data : List Nat, checksum_u8 data = data.sum % 256 := by
    intro data
    have h0 : (0 : Nat) = 0 % 256 := rfl
    rw [checksum_u8, h0, checksum_u8_foldl data 0, Nat.zero_add]
  refine ⟨hsum, ?_⟩
  intro a b
  rw [hsum, hsum, hsum, List.sum_append, Nat.add_mod]

/-- C1: for every buffer of size at least 2 whose trailing 16-bit big-endian
field (bytes `data[size-2]`, `data[size-1]`) equals the sum of the preceding
`size - 2` bytes, the variant-specific checksum `checksum_u8_ys` returns 0. -/
theorem checksum_u8_ys_trailing_be16_zero (data : List Nat) (hi lo : Nat)
    (hsz : 2 ≤ data.length) (hu32 : data.length < U32_MOD)
    (hhi : data[data.length - 2]? = some hi)
    (hlo : data[data.length - 1]? = some lo)
    (hhib : hi < 256) (hlob : lo < 256)
    (hck : hi * 256 + lo = (data.take (data.length - 2)).sum) :
    checksum_u8_ys data data.length = some 0 := by
  have hb2 : (data.length + (U32_MOD - 2)) % U32_MOD = data.length - 2 := by
    simp only [U32_MOD] at hu32 ⊢; omega
  have hb1 : (data.length + (U32_MOD - 1)) % U32_MOD = data.length - 1 := by
    simp only [U32_MOD] at hu32 ⊢; omega
  have hS : (data.take (data.length - 2)).sum < U16_MOD := by
    rw [← hck]; simp only [U16_MOD]; omega
  rw [checksum_u8_ys, hb2, hb1,
    u16SumLoop_eq_sum data (data.length - 2) (by omega) (data.length - 2) 0 0
      rfl (by omega) (by norm_num [U16_MOD]),
    hhi, hlo]
  simp only [Option.some_bind, List.drop_zero, Nat.sub_zero, Nat.zero_add,
    Nat.mod_eq_of_lt hS, ← hck, Option.some.injEq]
  have hSM : hi * 256 + lo < U16_MOD := by rw [hck]; exact hS
  rw [Nat.mod_eq_of_lt hSM]
  have hfull : hi * 256 + lo + (U16_MOD - (hi * 256 + lo)) = U16_MOD := by
    omega
  rw [hfull, Nat.mod_self]

theorem checksum_u8_ys_trailing_be16_zero_witness :
    checksum_u8_ys [1, 2, 0, 3] 4 = some 0 :=
  checksum_u8_ys_trailing_be16_zero [1, 2, 0, 3] 0 3 (by decide) (by decide)
    rfl rfl (by decide) (by decide) (by decide)

/-- C5: `checksum_u8_ys data size` (over a buffer of exactly `size` bytes,
`size` a `u32` below `U32_MOD`) stays in bounds exactly when `size ≥ 2`: the
`u32` subtraction `size - 2` wraps around for smaller sizes, so the total
embedding answers `some` precisely on sizes at least 2 and hits an
out-of-bounds read (answers `none`) for `size < 2`. -/
theorem checksum_u8_ys_isSome_iff (data : List Nat) (size : Nat)
    (hlen : data.length = size) (hu32 : size < U32_MOD) :
    (checksum_u8_ys data size).isSome ↔ 2 ≤ size := by
  constructor
  · intro hsome
    by_contra hlt
    have hsz : size = 0 ∨ size = 1 := by omega
    have hpos : 0 < (size + (U32_MOD - 2)) % U32_MOD := by
      simp only [U32_MOD] at hu32 ⊢; omega
    rcases hsz with h0 | h1
    · subst h0
      have hnil : data = [] := List.eq_nil_of_length_eq_zero hlen
      rw [checksum_u8_ys, u16SumLoop, dif_pos hpos, hnil] at hsome
      simp at hsome
    · subst h1
      obtain ⟨b, hbd⟩ : ∃ b, data = [b] := by
        cases data with
        | nil => simp at hlen
        | cons x l =>
            cases l with
            | nil => exact ⟨x, rfl⟩
            | cons y m => simp at hlen
      have hone : 1 < (1 + (U32_MOD - 2)) % U32_MOD := by
        simp only [U32_MOD]; omega
      rw [checksum_u8_ys, u16SumLoop, dif_pos hpos, hbd] at hsome
      simp only [List.getElem?_cons_zero] at hsome
      rw [u16SumLoop, dif_pos hone] at hsome
      simp at hsome
  · intro hsz
    have hb2 : (size + (U32_MOD - 2)) % U32_MOD = size - 2 := by
      simp only [U32_MOD] at hu32 ⊢; omega
    have hb1 : (size + (U32_MOD - 1)) % U32_MOD = size - 1 := by
      simp only [U32_MOD] at hu32 ⊢; omega
    rw [checksum_u8_ys, hb2, hb1,
      u16SumLoop_eq_sum data (size - 2) (by omega) (size - 2) 0 0 rfl
        (by omega) (by norm_num [U16_MOD]),
      List.getElem?_eq_getElem (by omega : size - 2 < data.length),
      List.getElem?_eq_getElem (by omega : size - 1 < data.length)]
    rfl

theorem checksum_u8_ys_isSome_iff_witness :
    (checksum_u8_ys [5, 6] 2).isSome ↔ 2 ≤ 2 :=
  checksum_u8_ys_isSome_iff [5, 6] 2 rfl (by decide)

/-- The loop shared by `checksum_le16` and `checksum_be16`:
`for (i = 0; i < size; i += 2) checksum += <16-bit word at data + i>` with a
`u16` accumulator; `f` combines the two bytes of a word in the byte order
of the variant.  An access past the end of the buffer yields `none`. -/
def u16StrideLoop (f : Nat → Nat → Nat) (data : List Nat)
    (size i checksum : Nat) : Option Nat :=
  if _hlt : i < size then
    match data[i]?, data[i + 1]? with
    | some b0, some b1 =>
        u16StrideLoop f data size (i + 2) ((checksum + f b0 b1) % U16_MOD)
    | _, _ => none
  else
    some checksum
termination_by size - i

/-- `checksum_le16` of the header: `u16` sum of the little-endian 16-bit
words of the buffer. -/
def checksum_le16 (data : List Nat) (size : Nat) : Option Nat :=
  u16StrideLoop (fun b0 b1 => b0 + b1 * 256) data size 0 0

/-- `checksum_be16` of the header: `u16` sum of the big-endian 16-bit
words of the buffer. -/
def checksum_be16 (data : List Nat) (size : Nat) : Option Nat :=
  u16StrideLoop (fun b0 b1 => b0 * 256 + b1) data size 0 0

/-- The loop shared by `checksum_le32` and `checksum_be32`:
`for (i = 0; i < size; i += 4) checksum += <32-bit word at data + i>` with a
`u32` accumulator; `f` combines the four bytes of a word in the byte order
of the variant.  An access past the end of the buffer yields `none`. -/
def u32StrideLoop (f : Nat → Nat → Nat → Nat → Nat) (data : List Nat)
    (size i checksum : Nat) : Option Nat :=
  if _hlt : i < size then
    match data[i]?, data[i + 1]?, data[i + 2]?, data[i + 3]? with
    | some b0, some b1, some b2, some b3 =>
        u32StrideLoop f data size (i + 4)
          ((checksum + f b0 b1 b2 b3) % U32_MOD)
    | _, _, _, _ => none
  else
    some checksum
termination_by size - i

/-- `checksum_le32` of the header: `u32` sum of the little-endian 32-bit
words of the buffer. -/
def checksum_le32 (data : List Nat) (size : Nat) : Option Nat :=
  u32StrideLoop
    (fun b0 b1 b2 b3 => b0 + b1 * 256 + b2 * 65536 + b3 * 16777216)
    data size 0 0

/-- `checksum_be32` of the header: `u32` sum of the big-endian 32-bit
words of the buffer. -/
def checksum_be32 (data : List Nat) (size : Nat) : Option Nat :=
  u32StrideLoop
    (fun b0 b1 b2 b3 => b0 * 16777216 + b1 * 65536 + b2 * 256 + b3)
    data size 0 0

theorem u16StrideLoop_isSome (f : Nat → Nat → Nat) (data : List Nat)
    (size : Nat) (hsz : size ≤ data.length) (hev : size % 2 = 0) :
    ∀ n i checksum, size - i = n → i % 2 = 0 →
      (u16StrideLoop f data size i checksum).isSome := by
  intro n
  induction n using Nat.strong_induction_on with
  | _ n ih =>
      intro i checksum hn hi
      rw [u16StrideLoop]
      by_cases hlt : i < size
      · rw [dif_pos hlt]
        have hi1 : i + 1 < size := by omega
        split
        · exact ih (size - (i + 2)) (by omega) (i + 2) _ rfl (by omega)
        · rename_i hbad
          exact (hbad _ _
            (List.getElem?_eq_getElem (show i < data.length by omega))
            (List.getElem?_eq_getElem
              (show i + 1 < data.length by omega))).elim
      · rw [dif_neg hlt]; rfl

theorem u16StrideLoop_none_of_odd (f : Nat → Nat → Nat) (data : List Nat)
    (size : Nat) (hsz : data.length = size) (hodd : size % 2 = 1) :
    ∀ n i checksum, size - i = n → i % 2 = 0 → i < size →
      u16StrideLoop f data size i checksum = none := by
  intro n
  induction n using Nat.strong_induction_on with
  | _ n ih =>
      intro i checksum hn hi hlt
      rw [u16StrideLoop, dif_pos hlt]
      split
      · rename_i b0 b1 e0 e1
        have h1lt : i + 1 < data.length := (List.getElem?_eq_some.mp e1).1
        exact ih (size - (i + 2)) (by omega) (i + 2) _ rfl (by omega)
          (by omega)
      · rfl

theorem u32StrideLoop_isSome (f : Nat → Nat → Nat → Nat → Nat)
    (data : List Nat) (size : Nat) (hsz : size ≤ data.length)
    (hq : size % 4 = 0) :
    ∀ n i checksum, size - i = n → i % 4 = 0 →
      (u32StrideLoop f data size i checksum).isSome := by
  intro n
  induction n using Nat.strong_induction_on with
  | _ n ih =>
      intro i checksum hn hi
      rw [u32StrideLoop]
      by_cases hlt : i < size
      · rw [dif_pos hlt]
        have hi3 : i + 3 < size := by omega
        split
        · exact ih (size - (i + 4)) (by omega) (i + 4) _ rfl (by omega)
        · rename_i hbad
          exact (hbad _ _ _ _
            (List.getElem?_eq_getElem (show i < data.length by omega))
            (List.getElem?_eq_getElem (show i + 1 < data.length by omega))
            (List.getElem?_eq_getElem (show i + 2 < data.length by omega))
            (List.getElem?_eq_getElem
              (show i + 3 < data.length by omega))).elim
      · rw [dif_neg hlt]; rfl

theorem u32StrideLoop_none_of_nondiv (f : Nat → Nat → Nat → Nat → Nat)
    (data : List Nat) (size : Nat) (hsz : data.length = size)
    (hq : size % 4 ≠ 0) :
    ∀ n i checksum, size - i = n → i % 4 = 0 → i < size →
      u32StrideLoop f data size i checksum = none := by
  intro n
  induction n using Nat.strong_induction_on with
  | _ n ih =>
      intro i checksum hn hi hlt
      rw [u32StrideLoop, dif_pos hlt]
      split
      · rename_i b0 b1 b2 b3 e0 e1 e2 e3
        have h3lt : i + 3 < data.length := (List.getElem?_eq_some.mp e3).1
        exact ih (size - (i + 4)) (by omega) (i + 4) _ rfl (by omega)
          (by omega)
      · rfl

/-- C6: each stride-based checksum helper (over a buffer of exactly `size`
bytes) reads only in-bounds bytes precisely when `size` is a multiple of its
stride: `checksum_le16`/`checksum_be16` (stride 2) answer `some` exactly
when `size` is even and read past the end of the buffer (answer `none`) for
odd `size`; `checksum_le32`/`checksum_be32` (stride 4) answer `some` exactly
when `size` is a multiple of 4. -/
theorem stride_checksums_isSome_iff (data : List Nat) (size : Nat)
    (hlen : data.length = size) :
    ((checksum_le16 data size).isSome ↔ size % 2 = 0) ∧
    ((checksum_be16 data size).isSome ↔ size % 2 = 0) ∧
    ((checksum_le32 data size).isSome ↔ size % 4 = 0) ∧
    ((checksum_be32 data size).isSome ↔ size % 4 = 0) := by
  have h16 : ∀ f : Nat → Nat → Nat,
      ((u16StrideLoop f data size 0 0).isSome ↔ size % 2 = 0) := by
    intro f
    constructor
    · intro hsome
      by_contra hodd
      rw [u16StrideLoop_none_of_odd f data size hlen (by omega) size 0 0
        rfl rfl (by omega)] at hsome
      simp at hsome
    · intro hev
      exact u16StrideLoop_isSome f data size (by omega) hev size 0 0 rfl rfl
  have h32 : ∀ f : Nat → Nat → Nat → Nat → Nat,
      ((u32StrideLoop f data size 0 0).isSome ↔ size % 4 = 0) := by
    intro f
    constructor
    · intro hsome
      by_contra hq
      rw [u32StrideLoop_none_of_nondiv f data size hlen hq size 0 0
        rfl rfl (by omega)] at hsome
      simp at hsome
    · intro hq
      exact u32StrideLoop_isSome f data size (by omega) hq size 0 0 rfl rfl
  exact ⟨h16 _, h16 _, h32 _, h32 _⟩

theorem stride_checksums_isSome_iff_witness :
    (((checksum_le16 [1, 2, 3, 4] 4).isSome ↔ (4 : Nat) % 2 = 0) ∧
     ((checksum_be16 [1, 2, 3, 4] 4).isSome ↔ (4 : Nat) % 2 = 0) ∧
     ((checksum_le32 [1, 2, 3, 4] 4).isSome ↔ (4 : Nat) % 4 = 0) ∧
     ((checksum_be32 [1, 2, 3, 4] 4).isSome ↔ (4 : Nat) % 4 = 0)) :=
  stride_checksums_isSome_iff [1, 2, 3, 4] 4 rfl

/-- `struct goodix_ts_cmd` of the header: the command package, a packed
record with `u32 initialized`, `u32 cmd_reg`, `u32 length` and 8 payload
bytes `u8 cmds[8]` (embedded as a list holding the payload bytes). -/
structure goodix_ts_cmd where
  initialized : Nat
  cmd_reg : Nat
  length : Nat
  cmds : List Nat

/-- The little-endian 4-byte serialization of a `u32` field. -/
def le32_bytes (x : Nat) : List Nat :=
  [x % 256, x / 256 % 256, x / 65536 % 256, x / 16777216 % 256]

/-- Little-endian decoding of (the first) 4 bytes. -/
def le32_decode (bs : List Nat) : Nat :=
  bs.getD 0 0 + bs.getD 1 0 * 256 + bs.getD 2 0 * 65536
    + bs.getD 3 0 * 16777216

/-- Modelled from the spec: the wire serialization of the packed 20-byte
command record.  The body of `send_cmd`, which emits the record, is not
among the repository's files; the spec fixes the layout as
`initialized`(4B) + `cmd_reg`(4B) + `length`(4B) + `cmds`(8B) with the
4-byte fields little-endian.  The payload field is 8 bytes wide, so
`cmds` is padded with zeros (resp. truncated) to 8 bytes. -/
def serialize_cmd (c : goodix_ts_cmd) : List Nat :=
  le32_bytes c.initialized ++ le32_bytes c.cmd_reg ++ le32_bytes c.length ++
    (c.cmds.take 8 ++ List.replicate (8 - c.cmds.length) 0)

/-- Modelled from the spec: `send_cmd` transmits exactly the first
`length` bytes of `cmds`; bytes beyond `length` are never transmitted. -/
def transmitted_cmds (c : goodix_ts_cmd) : List Nat :=
  c.cmds.take c.length

theorem le32_decode_le32_bytes (x : Nat) :
    le32_decode (le32_bytes x) = x % U32_MOD := by
  simp only [le32_bytes, le32_decode, List.getD_cons_zero,
    List.getD_cons_succ, U32_MOD]
  omega

/-- C7: the command wire record serializes to exactly 20 bytes with fixed
field offsets — `initialized` at bytes 0-3, `cmd_reg` at bytes 4-7,
`length` at bytes 8-11 and the 8-byte `cmds` payload at bytes 12-19 — with
the 4-byte fields little-endian (decoding each 4-byte slice recovers the
field modulo `U32_MOD`); under the invariant `length ≤ 8`, exactly `length`
payload bytes are transmitted, and only the first `length` bytes of `cmds`
are significant for what is transmitted. -/
theorem goodix_ts_cmd_wire_layout (c : goodix_ts_cmd)
    (h8 : c.cmds.length = 8) (hle : c.length ≤ 8) :
    (serialize_cmd c).length = 20 ∧
    (serialize_cmd c).take 4 = le32_bytes c.initialized ∧
    ((serialize_cmd c).drop 4).take 4 = le32_bytes c.cmd_reg ∧
    ((serialize_cmd c).drop 8).take 4 = le32_bytes c.length ∧
    (serialize_cmd c).drop 12 = c.cmds ∧
    le32_decode ((serialize_cmd c).take 4) = c.initialized % U32_MOD ∧
    le32_decode (((serialize_cmd c).drop 4).take 4) = c.cmd_reg % U32_MOD ∧
    le32_decode (((serialize_cmd c).drop 8).take 4) = c.length % U32_MOD ∧
    (transmitted_cmds c).length = c.length ∧
    (∀ c2 : goodix_ts_cmd, c2.length = c.length →
      c2.cmds.take c.length = c.cmds.take c.length →
      transmitted_cmds c2 = transmitted_cmds c) := by
  have hpay : c.cmds.take 8 ++ List.replicate (8 - c.cmds.length) 0
      = c.cmds := by
    rw [h8, Nat.sub_self, List.replicate_zero, List.append_nil, ← h8,
      List.take_length]
  have hser : serialize_cmd c
      = le32_bytes c.initialized
          ++ (le32_bytes c.cmd_reg ++ (le32_bytes c.length ++ c.cmds)) := by
    rw [serialize_cmd, hpay, List.append_assoc, List.append_assoc]
  have hlen4 : ∀ x : Nat, (le32_bytes x).length = 4 := fun x => rfl
  have hd4 : (serialize_cmd c).drop 4
      = le32_bytes c.cmd_reg ++ (le32_bytes c.length ++ c.cmds) := by
    rw [hser, List.drop_left' (hlen4 _)]
  have hd8 : (serialize_cmd c).drop 8
      = le32_bytes c.length ++ c.cmds := by
    have : (serialize_cmd c).drop 8 = ((serialize_cmd c).drop 4).drop 4 := by
      rw [List.drop_drop]
    rw [this, hd4, List.drop_left' (hlen4 _)]
  have hd12 : (serialize_cmd c).drop 12 = c.cmds := by
    have : (serialize_cmd c).drop 12 = ((serialize_cmd c).drop 8).drop 4 := by
      rw [List.drop_drop]
    rw [this, hd8, List.drop_left' (hlen4 _)]
  have ht0 : (serialize_cmd c).take 4 = le32_bytes c.initialized := by
    rw [hser, List.take_left' (hlen4 _)]
  have ht4 : ((serialize_cmd c).drop 4).take 4 = le32_bytes c.cmd_reg := by
    rw [hd4, List.take_left' (hlen4 _)]
  have ht8 : ((serialize_cmd c).drop 8).take 4 = le32_bytes c.length := by
    rw [hd8, List.take_left' (hlen4 _)]
  refine ⟨?_, ht0, ht4, ht8, hd12, ?_, ?_, ?_, ?_, ?_⟩
  · rw [hser]
    simp [hlen4, h8]
  · rw [ht0, le32_decode_le32_bytes]
  · rw [ht4, le32_decode_le32_bytes]
  · rw [ht8, le32_decode_le32_bytes]
  · rw [transmitted_cmds, List.length_take, h8]
    omega
  · intro c2 hl2 hc2
    rw [transmitted_cmds, transmitted_cmds, hl2, hc2]

theorem goodix_ts_cmd_wire_layout_witness :
    (serialize_cmd ⟨1, 16736, 2, [9, 8, 7, 6, 5, 4, 3, 2]⟩).length = 20 ∧
    (serialize_cmd ⟨1, 16736, 2, [9, 8, 7, 6, 5, 4, 3, 2]⟩).take 4
      = le32_bytes 1 ∧
    ((serialize_cmd ⟨1, 16736, 2, [9, 8, 7, 6, 5, 4, 3, 2]⟩).drop 4).take 4
      = le32_bytes 16736 ∧
    ((serialize_cmd ⟨1, 16736, 2, [9, 8, 7, 6, 5, 4, 3, 2]⟩).drop 8).take 4
      = le32_bytes 2 ∧
    (serialize_cmd ⟨1, 16736, 2, [9, 8, 7, 6, 5, 4, 3, 2]⟩).drop 12
      = [9, 8, 7, 6, 5, 4, 3, 2] ∧
    le32_decode ((serialize_cmd ⟨1, 16736, 2, [9, 8, 7, 6, 5, 4, 3, 2]⟩).take 4)
      = 1 % U32_MOD ∧
    le32_decode
        (((serialize_cmd ⟨1, 16736, 2, [9, 8, 7, 6, 5, 4, 3, 2]⟩).drop 4).take 4)
      = 16736 % U32_MOD ∧
    le32_decode
        (((serialize_cmd ⟨1, 16736, 2, [9, 8, 7, 6, 5, 4, 3, 2]⟩).drop 8).take 4)
      = 2 % U32_MOD ∧
    (transmitted_cmds ⟨1, 16736, 2, [9, 8, 7, 6, 5, 4, 3, 2]⟩).length = 2 ∧
    (∀ c2 : goodix_ts_cmd, c2.length = 2 →
      c2.cmds.take 2 = [9, 8] →
      transmitted_cmds c2
        = transmitted_cmds ⟨1, 16736, 2, [9, 8, 7, 6, 5, 4, 3, 2]⟩) :=
  goodix_ts_cmd_wire_layout ⟨1, 16736, 2, [9, 8, 7, 6, 5, 4, 3, 2]⟩
    (by decide) (by decide)

/-- `struct goodix_ts_regs` of the header: the per-variant register map. -/
structure goodix_ts_regs where
  version_base : Nat
  version_len : Nat
  pid : Nat
  pid_len : Nat
  vid : Nat
  vid_len : Nat
  sensor_id : Nat
  sensor_id_mask : Nat
  cfg_addr : Nat
  esd : Nat
  command : Nat
  coor : Nat
  fw_request : Nat
  proximity : Nat

/-- `goodix_ts_regs_normandy` of the header: the variant A register map. -/
def goodix_ts_regs_normandy : goodix_ts_regs :=
  { version_base := 17708
    version_len := 72
    pid := 17717
    pid_len := 4
    vid := 17725
    vid_len := 4
    sensor_id := 17729
    sensor_id_mask := 15
    cfg_addr := 28536
    esd := 12531
    command := 28520
    coor := 16640
    fw_request := 0
    proximity := 0 }

/-- `goodix_ts_regs_yellowstone` of the header: the variant B register map. -/
def goodix_ts_regs_yellowstone : goodix_ts_regs :=
  { version_base := 16404
    version_len := 135
    pid := 16418
    pid_len := 4
    vid := 16426
    vid_len := 4
    sensor_id := 16431
    sensor_id_mask := 15
    cfg_addr := 38648
    esd := 16742
    command := 16736
    coor := 16768
    fw_request := 16768
    proximity := 16770 }

/-- Modelled from the spec: a code path consulting a register-map address
field treats the value 0 as "capability absent" for that variant, never as
a literal bus address 0; consulting yields no address at 0 and the field's
own value otherwise. -/
def consult_reg_addr (addr : Nat) : Option Nat :=
  if addr = 0 then none else some addr

/-- C8: in the variant A (normandy) register map the firmware-request and
proximity address fields are 0 while in the variant B (yellowstone) map
both are nonzero; consulting a register-map address field treats 0 as
"capability absent" (no address is produced), and any address it does
produce is the nonzero field value itself, never a literal bus address 0. -/
theorem regs_zero_means_absent :
    goodix_ts_regs_normandy.fw_request = 0 ∧
    goodix_ts_regs_normandy.proximity = 0 ∧
    goodix_ts_regs_yellowstone.fw_request ≠ 0 ∧
    goodix_ts_regs_yellowstone.proximity ≠ 0 ∧
    consult_reg_addr goodix_ts_regs_normandy.fw_request = none ∧
    consult_reg_addr goodix_ts_regs_normandy.proximity = none ∧
    (consult_reg_addr goodix_ts_regs_yellowstone.fw_request).isSome ∧
    (consult_reg_addr goodix_ts_regs_yellowstone.proximity).isSome ∧
    (∀ addr r : Nat, consult_reg_addr addr = some r → r = addr ∧ addr ≠ 0) := by
  refine ⟨rfl, rfl, by decide, by decide, rfl, rfl, rfl, rfl, ?_⟩
  intro addr r h
  rw [consult_reg_addr] at h
  by_cases h0 : addr = 0
  · rw [if_pos h0] at h
    exact absurd h (by simp)
  · rw [if_neg h0] at h
    exact ⟨(Option.some.injEq _ _ ▸ h).symm, h0⟩

/-- Modelled from the spec: step 2 of the event decoder.  The decoder body
(the `event_handler` operation of the variant's hardware layer) is not
among the repository's files; per the spec, when the Touch bit (0x80) of
the status byte is set the decoder reads the declared touch-count and
rejects the payload as a decode failure when the count exceeds
GOODIX_MAX_TOUCH, before any access to the 10-element coordinate array.
The result is the list of coordinate-array indices the decode accesses,
with `none` standing for the decode failure. -/
def decode_touch_accesses (status touch_num : Nat) : Option (List Nat) :=
  if status &&& GOODIX_TOUCH_EVENT ≠ 0 then
    if GOODIX_MAX_TOUCH < touch_num then none
    else some (List.range touch_num)
  else some []

/-- C3: decoding a status byte with the Touch bit (0x80) set and a declared
touch-count above 10 (GOODIX_MAX_TOUCH) is rejected as a decode failure
before any access to the 10-element coordinate array — in particular a
declared count of 11 is rejected — and every coordinate-array index any
successful decode accesses is below GOODIX_MAX_TOUCH (no out-of-bounds
read). -/
theorem decode_touch_overflow_rejected :
    (∀ status touch_num, status &&& GOODIX_TOUCH_EVENT ≠ 0 →
      GOODIX_MAX_TOUCH < touch_num →
      decode_touch_accesses status touch_num = none) ∧
    decode_touch_accesses 128 11 = none ∧
    (∀ status touch_num l,
      decode_touch_accesses status touch_num = some l →
      ∀ i ∈ l, i < GOODIX_MAX_TOUCH) := by
  refine ⟨?_, by decide, ?_⟩
  · intro status touch_num h1 h2
    rw [decode_touch_accesses, if_pos h1, if_pos h2]
  · intro status touch_num l h i hi
    rw [decode_touch_accesses] at h
    by_cases h1 : status &&& GOODIX_TOUCH_EVENT ≠ 0
    · rw [if_pos h1] at h
      by_cases h2 : GOODIX_MAX_TOUCH < touch_num
      · rw [if_pos h2] at h
        exact absurd h (by simp)
      · rw [if_neg h2] at h
        have hl : l = List.range touch_num := (Option.some.injEq _ _ ▸ h).symm
        subst hl
        have := List.mem_range.mp hi
        omega
    · rw [if_neg h1] at h
      have hl : l = [] := (Option.some.injEq _ _ ▸ h).symm
      subst hl
      exact absurd hi (List.not_mem_nil i)

/-- The power flag and the two shared flags of `struct goodix_ts_core`
(`power_on`, `irq_enabled`, `suspended`), embedded as booleans. -/
structure CoreState where
  power_on : Bool
  irq_enabled : Bool
  suspended : Bool
  deriving DecidableEq

/-- The core controller's operations named by the spec. -/
inductive CoreOp where
  | power_on
  | power_off
  | irq_setup
  | irq_enable (flag : Bool)
  | suspend
  | resume
  deriving DecidableEq

/-- Modelled from the spec: one transition of the core controller (the
operation bodies are not among the repository's files).  Per §4.5:
`power_on`/`power_off` toggle only the power flag (idempotently),
`irq_setup` installs the interrupt handler in the disabled state,
`irq_enable flag` atomically writes the interrupt-enabled flag, `suspend`
disables interrupts and sets the suspended flag in one critical section,
and `resume` clears the suspended flag and re-enables interrupts in one
critical section. -/
def core_step : CoreState → CoreOp → CoreState
  | s, .power_on => { s with power_on := true }
  | s, .power_off => { s with power_on := false }
  | s, .irq_setup => { s with irq_enabled := false }
  | s, .irq_enable f => { s with irq_enabled := f }
  | s, .suspend => { s with irq_enabled := false, suspended := true }
  | s, .resume => { s with suspended := false, irq_enabled := true }

/-- Run of the core controller: a sequence of operations from a state. -/
def core_run (s : CoreState) (ops : List CoreOp) : CoreState :=
  ops.foldl core_step s

/-- The initial controller state: powered off, interrupts disabled, not
suspended. -/
def core_init : CoreState := ⟨false, false, false⟩

/-- Whether a trace never invokes `irq_enable true` from a suspended
state. -/
def irq_guarded : CoreState → List CoreOp → Bool
  | _, [] => true
  | s, op :: ops =>
      (!(decide (op = CoreOp.irq_enable true) && s.suspended))
        && irq_guarded (core_step s op) ops

/-- C4 counterexample: after the concrete trace `[suspend, irq_enable true]`
from the initial state the model observes `suspended = true` together with
`irq_enabled = true`, refuting the claim that in every state reachable by
the controller's operations this combination is never observed (and with
it the claim that suspend/resume are the only writers of the two flags:
`irq_enable` also writes the interrupt-enabled flag). -/
theorem core_flags_combination_reachable :
    (core_run core_init [CoreOp.suspend, CoreOp.irq_enable true]).suspended
        = true ∧
    (core_run core_init [CoreOp.suspend, CoreOp.irq_enable true]).irq_enabled
        = true :=
  ⟨rfl, rfl⟩

/-- C4 (amended): suspend and resume each update the suspended and
interrupt-enabled flags together in one atomic transition, but
`irq_enable` is also a writer of the interrupt-enabled flag; along every
trace of the controller's operations in which `irq_enable true` is never
invoked from a suspended state, starting from any state not exhibiting
the combination, the combination suspended = true and interrupt-enabled =
true is never observed. -/
theorem core_flags_invariant_of_guarded (s : CoreState) (ops : List CoreOp)
    (hinit : ¬(s.suspended = true ∧ s.irq_enabled = true))
    (hg : irq_guarded s ops = true) :
    ¬((core_run s ops).suspended = true ∧
      (core_run s ops).irq_enabled = true) := by
  induction ops generalizing s with
  | nil => exact hinit
  | cons op rest ih =>
      have hrun : core_run s (op :: rest) = core_run (core_step s op) rest :=
        rfl
      rw [irq_guarded, Bool.and_eq_true] at hg
      rw [hrun]
      apply ih (core_step s op) ?_ hg.2
      cases op with
      | power_on => simpa [core_step] using hinit
      | power_off => simpa [core_step] using hinit
      | irq_setup => simp [core_step]
      | irq_enable f =>
          cases f with
          | false => simp [core_step]
          | true =>
              simp only [core_step]
              intro hcontra
              have hsusp : s.suspended = true := hcontra.1
              simp [hsusp] at hg
      | suspend => simp [core_step]
      | resume => simp [core_step]

theorem core_flags_invariant_of_guarded_witness :
    ¬((core_run core_init
        [CoreOp.suspend, CoreOp.resume, CoreOp.irq_enable true]).suspended
          = true ∧
      (core_run core_init
        [CoreOp.suspend, CoreOp.resume, CoreOp.irq_enable true]).irq_enabled
          = true) :=
  core_flags_invariant_of_guarded core_init
    [CoreOp.suspend, CoreOp.resume, CoreOp.irq_enable true]
    (by decide) (by decide)

/-- The interrupt-path state seen by `goodix_ts_irq_enable`: the
`irq_enabled` flag of `struct goodix_ts_core` plus the log of
enable/disable operations issued to the underlying interrupt
controller. -/
structure IrqState where
  irq_enabled : Bool
  hw_log : List Bool
  deriving DecidableEq

/-- Modelled from the spec: `goodix_ts_irq_enable` (only declared in the
header; §4.5's `irq_enable(flag)`): the transition of the
interrupt-enabled flag is atomic; enabling when already enabled, or
disabling when already disabled, is a no-op success (result 0) that issues
no operation to the underlying interrupt controller; otherwise the flag is
written and exactly one enable/disable is issued to the controller. -/
def goodix_ts_irq_enable (s : IrqState) (enable : Bool) : IrqState × Int :=
  if enable = s.irq_enabled then
    (s, 0)
  else
    ({ irq_enabled := enable, hw_log := s.hw_log ++ [enable] }, 0)

/-- C9: `goodix_ts_irq_enable` is idempotent in both directions — calling
it with the flag's current value returns success and leaves the whole
state (flag and interrupt-controller log) unchanged, and the second of two
equal calls in a row is always such a no-op success, so the underlying
interrupt controller is never double-counted. -/
theorem goodix_ts_irq_enable_idempotent :
    (∀ (s : IrqState) (b : Bool), s.irq_enabled = b →
      goodix_ts_irq_enable s b = (s, 0)) ∧
    (∀ (s : IrqState) (b : Bool),
      goodix_ts_irq_enable (goodix_ts_irq_enable s b).1 b
        = ((goodix_ts_irq_enable s b).1, 0)) := by
  constructor
  · intro s b h
    rw [goodix_ts_irq_enable, if_pos h.symm]
  · intro s b
    by_cases h : b = s.irq_enabled
    · simp [goodix_ts_irq_enable, h]
    · simp [goodix_ts_irq_enable, h]

/-- One liveness write issued by the ESD watchdog: target register, value
written, and the controller's suspended flag at the moment of the
write. -/
structure EsdWrite where
  addr : Nat
  value : Nat
  suspended_at_write : Bool
  deriving DecidableEq

/-- The joint state of the ESD watchdog and the controller's suspend flag:
the suspended flag, the watchdog's on/off flag (`esd_on` of
`struct goodix_ts_esd`), whether the periodic task is scheduled, and the
log of liveness writes issued so far. -/
structure EsdSystem where
  suspended : Bool
  esd_on : Bool
  esd_scheduled : Bool
  esd_writes : List EsdWrite
  deriving DecidableEq

/-- The interleaved events: a watchdog period firing, the ESD_OFF/ESD_ON
notifications, and the controller's suspend/resume transitions. -/
inductive EsdOp where
  | tick
  | esd_off_ev
  | esd_on_ev
  | suspend
  | resume
  deriving DecidableEq

/-- Modelled from the spec: one step of the ESD watchdog interleaved with
suspend/resume (the watchdog body is not among the repository's files).
Per §4.4: each period, if the watchdog is enabled and the controller not
suspended, it issues the fixed-sentinel liveness write
GOODIX_ESD_TICK_WRITE_DATA to the ESD register; ESD_OFF/ESD_ON toggle the
enable flag; suspend pauses the watchdog — the periodic task is
descheduled, not merely skipped — in the same transition that sets the
suspended flag, and resume clears the suspended flag and reschedules
it. -/
def esd_step (esd_reg : Nat) : EsdSystem → EsdOp → EsdSystem
  | s, .tick =>
      if s.esd_scheduled && s.esd_on && !s.suspended then
        { s with esd_writes := s.esd_writes
            ++ [⟨esd_reg, GOODIX_ESD_TICK_WRITE_DATA, s.suspended⟩] }
      else s
  | s, .esd_off_ev => { s with esd_on := false }
  | s, .esd_on_ev => { s with esd_on := true }
  | s, .suspend => { s with suspended := true, esd_scheduled := false }
  | s, .resume => { s with suspended := false, esd_scheduled := true }

/-- Run of the watchdog/suspend interleaving from a state. -/
def esd_run (esd_reg : Nat) (s : EsdSystem) (ops : List EsdOp) : EsdSystem :=
  ops.foldl (esd_step esd_reg) s

/-- The watchdog's starting state: not suspended, enabled (the
ESD-default-on seeding), periodic task scheduled, no writes issued. -/
def esd_init : EsdSystem := ⟨false, true, true, []⟩

theorem esd_step_preserves (esd_reg : Nat) (s : EsdSystem) (op : EsdOp)
    (h1 : ∀ w ∈ s.esd_writes, w.addr = esd_reg ∧
      w.value = GOODIX_ESD_TICK_WRITE_DATA ∧ w.suspended_at_write = false)
    (h2 : s.suspended = true → s.esd_scheduled = false) :
    (∀ w ∈ (esd_step esd_reg s op).esd_writes, w.addr = esd_reg ∧
      w.value = GOODIX_ESD_TICK_WRITE_DATA ∧ w.suspended_at_write = false) ∧
    ((esd_step esd_reg s op).suspended = true →
      (esd_step esd_reg s op).esd_scheduled = false) := by
  cases op with
  | tick =>
      rw [esd_step]
      split
      · rename_i hguard
        have hns : s.suspended = false := by
          simp only [Bool.and_eq_true, Bool.not_eq_eq_eq_not, Bool.not_true]
            at hguard
          exact hguard.2
        refine ⟨?_, h2⟩
        intro w hw
        rcases List.mem_append.mp hw with hin | hone
        · exact h1 w hin
        · have hwe : w = ⟨esd_reg, GOODIX_ESD_TICK_WRITE_DATA, s.suspended⟩ :=
            List.mem_singleton.mp hone
          subst hwe
          exact ⟨rfl, rfl, hns⟩
      · exact ⟨h1, h2⟩
  | esd_off_ev => exact ⟨h1, h2⟩
  | esd_on_ev => exact ⟨h1, h2⟩
  | suspend => exact ⟨h1, fun _ => rfl⟩
  | resume => exact ⟨h1, fun h => nomatch h⟩

theorem esd_run_preserves (esd_reg : Nat) (ops : List EsdOp) :
    ∀ s : EsdSystem,
      (∀ w ∈ s.esd_writes, w.addr = esd_reg ∧
        w.value = GOODIX_ESD_TICK_WRITE_DATA ∧
        w.suspended_at_write = false) →
      (s.suspended = true → s.esd_scheduled = false) →
      (∀ w ∈ (esd_run esd_reg s ops).esd_writes, w.addr = esd_reg ∧
        w.value = GOODIX_ESD_TICK_WRITE_DATA ∧
        w.suspended_at_write = false) ∧
      ((esd_run esd_reg s ops).suspended = true →
        (esd_run esd_reg s ops).esd_scheduled = false) := by
  induction ops with
  | nil => intro s h1 h2; exact ⟨h1, h2⟩
  | cons op rest ih =>
      intro s h1 h2
      have hstep := esd_step_preserves esd_reg s op h1 h2
      exact ih (esd_step esd_reg s op) hstep.1 hstep.2

/-- C10: in every interleaving of the ESD watchdog's periodic task with
the controller's suspend/resume transitions reachable from the watchdog's
starting state, every liveness write issued targets the ESD register with
the fixed sentinel GOODIX_ESD_TICK_WRITE_DATA and is issued while the
suspended flag is false — the watchdog never issues a liveness write while
suspended (moreover, while suspended its periodic task is always
descheduled). -/
theorem esd_no_write_while_suspended (esd_reg : Nat) (ops : List EsdOp) :
    (∀ w ∈ (esd_run esd_reg esd_init ops).esd_writes, w.addr = esd_reg ∧
      w.value = GOODIX_ESD_TICK_WRITE_DATA ∧
      w.suspended_at_write = false) ∧
    ((esd_run esd_reg esd_init ops).suspended = true →
      (esd_run esd_reg esd_init ops).esd_scheduled = false) :=
  esd_run_preserves esd_reg ops esd_init
    (fun w hw => absurd hw (List.not_mem_nil w))
    (fun h => by simp [esd_init] at h)

end Goodix
